import Mathlib

/-!
Verification of the streaming response protocol and step-confirmation state
machine of the `installector` repository, as described in its natural-language
specification.  Text is modelled as `List Char`; the relevant Python functions
(`ResponseHandler.extract_xml_section`, `ResponseHandler.extract_response_sections`,
`SimpleTerminal.show_streaming_output`, `SimpleTerminal._update_system_info`,
`CommandProcessor.get_command_confirmation`, `VerificationOutput.run_verification`,
`VerificationOutput.handle_verification_status`, `MessageBroker.add_message`)
are embedded as total Lean functions, with the regular-expression searches of
the source replaced by their operational meaning on lists of characters
(leftmost match, then shortest for the non-greedy parts).
-/

namespace Installector

/-- ASCII lower-casing of a single character.  Models Python `str.lower()` and
`re.IGNORECASE` on the ASCII tag and command text this program handles
(the source never relies on non-ASCII case folding). -/
def asciiLowerChar (c : Char) : Char :=
  if 'A' ≤ c ∧ c ≤ 'Z' then Char.ofNat (c.toNat + 32) else c

/-- ASCII lower-casing of a string (as a character list). -/
def asciiLower (s : List Char) : List Char := s.map asciiLowerChar

/-- The whitespace characters removed by Python `str.strip()` on the ASCII
range: space, tab, newline, carriage return, vertical tab, form feed. -/
def isSpaceChar (c : Char) : Bool :=
  c = ' ' || c = '\t' || c = '\n' || c = '\r' || c = Char.ofNat 11 || c = Char.ofNat 12

/-- Python `str.strip()`: drop leading and trailing whitespace. -/
def stripL (s : List Char) : List Char :=
  ((s.dropWhile isSpaceChar).reverse.dropWhile isSpaceChar).reverse

/-- Index of the first occurrence of the literal pattern `pat` in `s`, if any:
the position at which `re.search` for a literal pattern reports its match. -/
def findSub (pat : List Char) : List Char → Option Nat
  | [] => if pat.isEmpty then some 0 else none
  | c :: rest =>
    if pat.isPrefixOf (c :: rest) then some 0
    else (findSub pat rest).map (· + 1)

/-- Whether the literal pattern `pat` occurs anywhere in `s`; models both the
Python `in` operator on strings and a plain `re.search` succeeding. -/
def containsSub (pat s : List Char) : Bool := (findSub pat s).isSome

/-- The Python `\w` character class, restricted to the ASCII range used by
the program inputs: letters, digits and underscore. -/
def isWordChar (c : Char) : Bool :=
  ('a' ≤ c && c ≤ 'z') || ('A' ≤ c && c ≤ 'Z') || ('0' ≤ c && c ≤ '9') || c = '_'

/-- The backtick character (written numerically). -/
def btick : Char := Char.ofNat 96

/-- The opening code-fence marker, three backticks. -/
def fenceMarker : List Char := "```".toList

/-- Consume the optional language tag after an opening code fence, following
the alternation order of the source pattern `(?:xml|bash|shell|\w+)?`
(`console_response.py` line 23): the literal alternatives are tried first (a
plain prefix match, the pattern has no word-boundary assertion), then a
maximal run of word characters, then nothing.  The alternation never needs to
backtrack here because none of the alternatives can consume a backtick, so
whether a closing fence exists later is independent of the branch taken. -/
def eatLang (s : List Char) : List Char :=
  if "xml".toList.isPrefixOf s then s.drop 3
  else if "bash".toList.isPrefixOf s then s.drop 4
  else if "shell".toList.isPrefixOf s then s.drop 5
  else s.dropWhile isWordChar

/-- Consume the optional newline after the language tag (the `\n?` of the
source pattern; greedy, so it is taken when present). -/
def eatNewline (s : List Char) : List Char :=
  match s with
  | c :: rest => if c = '\n' then rest else c :: rest
  | [] => []

/-- Model of `re.search(r"```(?:xml|bash|shell|\w+)?\n?(.*?)```", content,
re.DOTALL)` returning capture group 1 (`console_response.py` lines 23-26).
The match starts at the first occurrence of three backticks (if the match
attempt at the first occurrence finds no closing fence, no later attempt can
succeed either, since the consumed language tag and newline contain no
backtick), and the non-greedy group runs to the next occurrence of three
backticks. -/
def findFence (content : List Char) : Option (List Char) :=
  match findSub fenceMarker content with
  | none => none
  | some p =>
    let rest := eatNewline (eatLang (content.drop (p + 3)))
    match findSub fenceMarker rest with
    | none => none
    | some j => some (rest.take j)

/-- The opening tag `<tag>`. -/
def openTagL (tag : List Char) : List Char := '<' :: (tag ++ ['>'])

/-- The closing tag `</tag>`. -/
def closeTagL (tag : List Char) : List Char := '<' :: '/' :: (tag ++ ['>'])

/-- Capture group 1 of `re.search(f"<{tag}>(.*?)</{tag}>", text, re.DOTALL)`
(`console_response.py` lines 16-17): the text between the first occurrence of
`<tag>` and the first following occurrence of `</tag>` (leftmost match start,
shortest extent for the non-greedy group), or `none` when no such pair
exists. -/
def capturedBody (text tag : List Char) : Option (List Char) :=
  match findSub (openTagL tag) text with
  | none => none
  | some i =>
    let rest := text.drop (i + (openTagL tag).length)
    match findSub (closeTagL tag) rest with
    | none => none
    | some j => some (rest.take j)

/-- Model of `re.search(r"<terminate>.*?</terminate>", text,
re.DOTALL | re.IGNORECASE)` succeeding (`console_response.py` lines 12-13):
some case-insensitive occurrence of `<terminate>` is followed by a
case-insensitive occurrence of `</terminate>`; equivalently (as the first
opening occurrence is leftmost) the first one is. -/
def terminatePresent (text : List Char) : Bool :=
  let lt := asciiLower text
  match findSub ("<terminate>".toList) lt with
  | none => false
  | some i => containsSub ("</terminate>".toList) (lt.drop (i + ("<terminate>".toList).length))

/-- Embedding of `ResponseHandler.extract_xml_section` (`console_response.py`
lines 8-29).  For the tag `terminate` (compared after `str.lower()`) it
returns the sentinel `"true"` when the closed pair is present
case-insensitively, else `""`.  Otherwise it takes the captured body between
the first `<tag>` and the first following `</tag>`, strips it, and if the
stripped body contains a fenced code block returns the stripped fence
interior instead; it returns `""` when the tag pair is not both present.
The function is total: no input can make it raise. -/
def extract_xml_section (text tag : List Char) : List Char :=
  if asciiLower tag = "terminate".toList then
    if terminatePresent text then "true".toList else []
  else
    match capturedBody text tag with
    | none => []
    | some body =>
      let content := stripL body
      match findFence content with
      | some inner => stripL inner
      | none => content

/-- The fixed-shape record of extracted sections (the `ResponseSections` record of the spec); each field is `[]` when its tag pair is absent. -/
structure ResponseSections where
  think : List Char
  title : List Char
  description : List Char
  execution : List Char
  expected : List Char
  verification : List Char
  conclusion : List Char
deriving DecidableEq

/-- Embedding of `ResponseHandler.extract_response_sections`
(`console_response.py` lines 32-42): one `extract_xml_section` call per known
tag. -/
def extract_response_sections (text : List Char) : ResponseSections where
  think := extract_xml_section text ("think".toList)
  title := extract_xml_section text ("title_section".toList)
  description := extract_xml_section text ("description_section".toList)
  execution := extract_xml_section text ("execution_section".toList)
  expected := extract_xml_section text ("expected_section".toList)
  verification := extract_xml_section text ("verification_section".toList)
  conclusion := extract_xml_section text ("conclusion_section".toList)

/-- Claim-side contract for the extractor, written from the words of the spec
(§4.1): "returns the trimmed content between the first `<tag>` and first
following `</tag>` occurrence (non-greedy, spans newlines), or empty string
if the tag pair is not (yet) both present".  Kept separate from the source
embedding so the two can be compared. -/
def extractSpecContract (text tag : List Char) : List Char :=
  match findSub (openTagL tag) text with
  | none => []
  | some i =>
    let rest := text.drop (i + (openTagL tag).length)
    match findSub (closeTagL tag) rest with
    | none => []
    | some j => stripL (rest.take j)

/-- The two command slots tracked by `SimpleTerminal` (`console.py` lines
32-33).  The remaining attributes of `SimpleTerminal` (console, menus, prompt
session, system-info dictionary) are display state and collaborator objects
outside the scope of the claims and are not modelled. -/
structure TerminalState where
  last_exec_command : Option (List Char)
  last_verify_command : Option (List Char)
deriving DecidableEq

/-- `SimpleTerminal.__init__` starts both command slots at `None`
(`console.py` lines 32-33). -/
def initTerminal : TerminalState := ⟨none, none⟩

/-- Python truthiness of an optional string: `None` and `""` are falsy,
any non-empty string is truthy. -/
def truthyOpt : Option (List Char) → Bool
  | none => false
  | some s => !s.isEmpty

/-- Embedding of `SimpleTerminal._update_system_info` (`console.py` lines
103-114) restricted to the fields the claims are about: each command slot is
overwritten exactly when the freshly extracted section is truthy (non-empty).
The function also mirrors the sections into
`system_info` under the key `last_llm_response`, a display-only side record that is not
modelled. -/
def update_system_info (st : TerminalState) (sections : ResponseSections) : TerminalState where
  last_exec_command :=
    if !sections.execution.isEmpty then some sections.execution else st.last_exec_command
  last_verify_command :=
    if !sections.verification.isEmpty then some sections.verification else st.last_verify_command

/-- The exact termination marker tested by `show_streaming_output`
(`console.py` line 133): a case-sensitive `in` check for this literal. -/
def terminateMarker : List Char := "<TERMINATE></TERMINATE>".toList

/-- Concatenation of a fragment sequence, in arrival order. -/
def flattenL : List (List Char) → List Char
  | [] => []
  | x :: xs => x ++ flattenL xs

/-- Result of one run of the accumulation loop of `show_streaming_output`
(`console.py` lines 123-146): final command state, final buffer, whether the
termination marker fired, and how many fragments were consumed. -/
structure LoopResult where
  state : TerminalState
  buffer : List Char
  terminated : Bool
  consumed : Nat
deriving DecidableEq

/-- The `for content in generator` loop of `show_streaming_output`: each
fragment is appended to the buffer; if the buffer now contains the literal
uppercase marker the loop returns at once (before any extraction), otherwise
the sections of the whole buffer are re-extracted and the command slots
updated.  The formatting / `live.update` calls and the raw-text fallback of
the inner `try` are display-only and cannot affect this state, so they are
not modelled. -/
def streamLoop (st : TerminalState) (acc : List Char) : List (List Char) → LoopResult
  | [] => ⟨st, acc, false, 0⟩
  | f :: rest =>
    let acc2 := acc ++ f
    if containsSub terminateMarker acc2 then ⟨st, acc2, true, 1⟩
    else
      let st2 := update_system_info st (extract_response_sections acc2)
      let r := streamLoop st2 acc2 rest
      ⟨r.state, r.buffer, r.terminated, r.consumed + 1⟩

/-- Observable outcome of one `show_streaming_output` call. -/
structure SessionOutcome where
  /-- The `"No content received from generator"` error path was taken. -/
  errorReported : Bool
  /-- The `"Operation Complete!"` notice of the termination branch was shown. -/
  completionNotice : Bool
  /-- Number of fragments consumed from the generator. -/
  consumed : Nat
  /-- `get_command_confirmation` was invoked after the loop. -/
  ranConfirmation : Bool
  /-- Final command slots. -/
  state : TerminalState
deriving DecidableEq

/-- Embedding of `SimpleTerminal.show_streaming_output` (`console.py` lines
116-154).  The argument models the Python `generator` parameter: `none`
stands for a falsy argument (`None`), and `some frags` for an actual
generator object yielding `frags` — a Python generator object is always
truthy even when it will yield nothing, so `if not generator` fires only in
the `none` case.  After the loop, confirmation runs iff one of the command
slots is truthy and the termination branch did not return early.  Nothing in
the modelled path can raise, so the outer `except` branch is dead here. -/
def show_streaming_output (st : TerminalState) (gen : Option (List (List Char))) :
    SessionOutcome :=
  match gen with
  | none => ⟨true, false, 0, false, st⟩
  | some frags =>
    let r := streamLoop st [] frags
    if r.terminated then ⟨false, true, r.consumed, false, r.state⟩
    else
      ⟨false, false, r.consumed,
        truthyOpt r.state.last_exec_command || truthyOpt r.state.last_verify_command,
        r.state⟩

/-- Behaviour of the underlying subprocess execution service for one
verification run, as seen through `subprocess.run(..., shell=True,
capture_output=True, text=True, timeout=...)` in `verify_execution.py` lines
84-96: normal completion with exit code and captured streams, a raised
`TimeoutExpired`, a raised `SubprocessError` with its message, or any other
unexpected exception (caught by the final `except Exception`). -/
inductive ProcResult where
  | completed (exitCode : Int) (stdout stderr : List Char)
  | timedOut
  | subprocessError (msg : List Char)
  | unexpected (msg : List Char)
deriving DecidableEq

/-- Decimal digits of a natural number. -/
def natChars (n : Nat) : List Char := Nat.toDigits 10 n

/-- Python `str()` of an integer. -/
def intChars (i : Int) : List Char :=
  if i < 0 then '-' :: natChars i.natAbs else natChars i.natAbs

/-- The `verification_result` string built by `run_verification` on normal
completion (`verify_execution.py` lines 112-117): optional stdout block,
optional stderr block, then the status line with the return code. -/
def buildVerificationResult (stdout stderr : List Char) (code : Int) : List Char :=
  (if !stdout.isEmpty then "Output:\n".toList ++ stdout ++ "\n".toList else []) ++
  (if !stderr.isEmpty then "Errors:\n".toList ++ stderr ++ "\n".toList else []) ++
  "Status: ".toList ++ (if code = 0 then "Success".toList else "Failed".toList) ++
  " (return code: ".toList ++ intChars code ++ ")".toList

/-- First whitespace-delimited token of a command; models
`shlex.split(verify_command)[0]` (`verify_execution.py` line 95) for the
plain unquoted commands this program passes (only used inside the
command-not-found error message). -/
def firstShellToken (s : List Char) : List Char :=
  (s.dropWhile isSpaceChar).takeWhile (fun c => !isSpaceChar c)

/-- The value returned by `run_verification`: the source annotation is
`bool | tuple[bool, str]`, and both shapes are actually returned. -/
inductive VerifyReturn where
  | bareBool (b : Bool)
  | pair (success : Bool) (resultText : List Char)
deriving DecidableEq

/-- A `run_verification` call: whether a subprocess was spawned, and the
returned value. -/
structure VerifyCall where
  spawned : Bool
  ret : VerifyReturn
deriving DecidableEq

/-- Embedding of `VerificationOutput.run_verification` (`verify_execution.py`
lines 60-132).  `verify_command` is the recorded command (`None`/empty is
falsy); `proc` is the behaviour the subprocess service would exhibit.  When
the command is falsy the function returns the bare boolean `True` (line 76)
without spawning anything.  Otherwise every failure class is converted into
a `(False, text)` pair by the `except` clauses of lines 121-132, and normal
completion returns `(returncode == 0, verification_result)` (line 119); no
branch raises past the function.  The interleaved `console.print` calls are
display-only. -/
def run_verification (verify_command : Option (List Char)) (timeout : Nat)
    (proc : ProcResult) : VerifyCall :=
  if !truthyOpt verify_command then ⟨false, .bareBool true⟩
  else
    match proc with
    | .completed code stdout stderr =>
        ⟨true, .pair (code == 0) (buildVerificationResult stdout stderr code)⟩
    | .timedOut =>
        ⟨true, .pair false
          (("Timeout Error: Command timed out after ".toList ++ natChars timeout)
            ++ " seconds".toList)⟩
    | .subprocessError msg =>
        if containsSub ("command not found".toList) (asciiLower msg) then
          ⟨true, .pair false
            ("Command Not Found: Command not found: ".toList
              ++ firstShellToken (verify_command.getD []))⟩
        else
          ⟨true, .pair false ("Execution Error: Error executing command: ".toList ++ msg)⟩
    | .unexpected msg =>
        ⟨true, .pair false ("Unexpected Error: ".toList ++ msg)⟩

/-- The recognized confirmation tokens of `get_command_confirmation`
(`console_processor.py` line 118). -/
def recognizedTokens : List (List Char) :=
  ["yes".toList, "y".toList, "no".toList, "n".toList]

/-- The membership test on the lowercased response against the recognized tokens. -/
def isRecognized (r : List Char) : Bool := recognizedTokens.contains (asciiLower r)

/-- The re-prompt loop of `get_command_confirmation` (`console_processor.py`
lines 104-120) over a list of modelled `get_input` results (`none` models an
interrupted prompt, which `get_input` surfaces as `None`).  Returns the first
recognized response (after the empty-input-to-"yes" substitution), the number
of prompts consumed, and the number of "Please answer Yes or No" warnings;
`none` as first component means the modelled input list was exhausted while
the loop would keep re-prompting. -/
def confirmLoop : List (Option (List Char)) → (Option (List Char) × Nat × Nat)
  | [] => (none, 0, 0)
  | i :: rest =>
    let r := match i with
      | none => "yes".toList
      | some s => if stripL s = [] then "yes".toList else s
    if isRecognized r then (some r, 1, 0)
    else
      let t := confirmLoop rest
      (t.1, t.2.1 + 1, t.2.2 + 1)

/-- How one `get_command_confirmation` call ends. -/
inductive ConfirmOutcome where
  /-- The modelled input list ran out while the loop would keep re-prompting. -/
  | needMoreInput
  /-- Negative answer: the function returned `False` before creating the
  verifier, so no verification command was run. -/
  | notConfirmed
  /-- Affirmative answer: `run_verification` was called and returned a pair;
  the function returns the success flag of that pair. -/
  | verified (success : Bool)
  /-- Affirmative answer but `run_verification` returned its bare-boolean
  shape, so the tuple unpacking `success, result = ...` raises `TypeError`. -/
  | unpackError
deriving DecidableEq

/-- Observable outcome of `get_command_confirmation`. -/
structure ConfirmResult where
  outcome : ConfirmOutcome
  /-- Prompts shown (= modelled inputs consumed). -/
  promptsShown : Nat
  /-- "Please answer Yes or No" warnings shown. -/
  retryWarnings : Nat
  /-- The "Please execute the command before proceeding" warning was shown. -/
  warnedNotExecuted : Bool
  /-- `run_verification` was invoked. -/
  ranVerification : Bool
deriving DecidableEq

/-- Embedding of `CommandProcessor.get_command_confirmation`
(`console_processor.py` lines 99-149).  An empty (or interrupted, or
whitespace-only) input is replaced by `"yes"`; unrecognized input warns and
re-prompts; a recognized answer starting with `n` warns and returns `False`
without running verification; otherwise `run_verification` is called on the
stored verify command.  The subsequent `handle_verification_status` /
streaming calls and the `system_info` bookkeeping of the affirmative branch
do not affect the return value of this function and are modelled separately. -/
def get_command_confirmation (inputs : List (Option (List Char)))
    (st : TerminalState) (proc : ProcResult) : ConfirmResult :=
  match confirmLoop inputs with
  | (none, n, w) => ⟨.needMoreInput, n, w, false, false⟩
  | (some r, n, w) =>
    if "n".toList.isPrefixOf (asciiLower r) then ⟨.notConfirmed, n, w, true, false⟩
    else
      match (run_verification st.last_verify_command 30 proc).ret with
      | .bareBool _ => ⟨.unpackError, n, w, false, true⟩
      | .pair success _ => ⟨.verified success, n, w, false, true⟩

/-- Message roles (the `ConversationMessage.role` enumeration of the spec). -/
inductive Role where
  | user
  | assistant
  | system
deriving DecidableEq

/-- One conversation message. -/
structure ChatMessage where
  role : Role
  content : List Char
deriving DecidableEq

/-- The conversation state owned by `MessageBroker`
(`message_broker.py` lines 12-15); `max_history` defaults to 100. -/
structure MessageBroker where
  message_history : List ChatMessage
  max_history : Nat
deriving DecidableEq

/-- Embedding of `MessageBroker.add_message` (`message_broker.py` lines
17-30): empty content raises `MessageBrokerError` (modelled as `Except.error`
carrying the message); the role check always passes since `Role` is the
enumeration itself; when the history is at capacity the oldest entry is
popped before the append. -/
def add_message (mb : MessageBroker) (content : List Char) (role : Role) :
    Except (List Char) MessageBroker :=
  if content.isEmpty then
    .error ("Message content must be a non-empty string".toList)
  else
    .ok { mb with
      message_history :=
        (if mb.message_history.length ≥ mb.max_history then
          mb.message_history.tail
        else mb.message_history) ++ [⟨role, content⟩] }

/-- The `next_step_msg` f-string of `handle_verification_status`
(`verify_execution.py` lines 32-38), byte-for-byte (31-space indentation
inside the triple-quoted literal). -/
def successMessage (last_exec_command last_verify_command result : List Char) : List Char :=
  "The previous step was successful. Here are the details:\n\n                               Executed Command: ".toList ++
  (last_exec_command ++
  ("\n                               Verification Command: ".toList ++
  (last_verify_command ++
  ("\n                               Verification Result: ".toList ++
  (result ++
  "\n\n                               Please provide the next step. However, if there are no more steps remaining, include <TERMINATE></TERMINATE> in your response.".toList)))))

/-- The `troubleshoot_msg` f-string of `handle_verification_status`
(`verify_execution.py` lines 43-49), byte-for-byte (16-space indentation,
including the two whitespace-only lines of the literal). -/
def troubleshootMessage (last_exec_command last_verify_command result : List Char) : List Char :=
  "The previous step failed. Here are the details:\n                \n                Executed Command: ".toList ++
  (last_exec_command ++
  ("\n                Verification Command: ".toList ++
  (last_verify_command ++
  ("\n                Verification Result: ".toList ++
  (result ++
  "\n                \n                Please analyze the output and provide specific troubleshooting steps to resolve this issue.".toList)))))

/-- The message `handle_verification_status` constructs for each branch. -/
def followUpMessage (success : Bool) (last_exec_command last_verify_command result : List Char) :
    List Char :=
  if success then successMessage last_exec_command last_verify_command result
  else troubleshootMessage last_exec_command last_verify_command result

/-- Embedding of `VerificationOutput.handle_verification_status`
(`verify_execution.py` lines 27-58): build the follow-up message of the branch and
append it via `add_message` with the default role `"user"`.  The subsequent
`message_broker.get_response()` call queries the LLM transport and does not
modify the history; it is outside this model. -/
def handle_verification_status (success : Bool) (result : List Char) (mb : MessageBroker)
    (last_exec_command last_verify_command : List Char) : Except (List Char) MessageBroker :=
  add_message mb (followUpMessage success last_exec_command last_verify_command result) Role.user

/-! ### Helper lemmas about the string-search primitives -/

theorem prefixOf_exists {p l : List Char} : p.isPrefixOf l = true ↔ ∃ t, l = p ++ t := by
  induction p generalizing l with
  | nil => simp [List.isPrefixOf]
  | cons a as ih =>
    cases l with
    | nil =>
      simp [List.isPrefixOf]
    | cons b bs =>
      simp only [List.isPrefixOf, Bool.and_eq_true, beq_iff_eq, ih, List.cons_append,
        List.cons.injEq]
      constructor
      · rintro ⟨rfl, t, rfl⟩
        exact ⟨t, rfl, rfl⟩
      · rintro ⟨t, rfl, rfl⟩
        exact ⟨rfl, t, rfl⟩

theorem containsSub_iff {pat s : List Char} :
    containsSub pat s = true ↔ ∃ u v, s = u ++ (pat ++ v) := by
  induction s with
  | nil =>
    cases pat with
    | nil => simp [containsSub, findSub]
    | cons c cs => simp [containsSub, findSub, List.isEmpty]
  | cons c rest ih =>
    by_cases h : pat.isPrefixOf (c :: rest) = true
    · simp only [containsSub, findSub, if_pos h, Option.isSome_some, true_iff]
      obtain ⟨t, ht⟩ := prefixOf_exists.mp h
      exact ⟨[], t, by simpa using ht⟩
    · have hstep : containsSub pat (c :: rest) = containsSub pat rest := by
        simp only [containsSub, findSub, if_neg h]
        cases findSub pat rest <;> rfl
      rw [hstep, ih]
      constructor
      · rintro ⟨u, v, rfl⟩
        exact ⟨c :: u, v, rfl⟩
      · rintro ⟨u, v, huv⟩
        cases u with
        | nil =>
          exfalso
          exact h (prefixOf_exists.mpr ⟨v, by simpa using huv⟩)
        | cons d u' =>
          obtain ⟨rfl, h2⟩ := List.cons.injEq .. ▸ huv
          exact ⟨u', v, h2⟩

theorem containsSub_append_right {pat a : List Char} (b : List Char)
    (h : containsSub pat a = true) : containsSub pat (a ++ b) = true := by
  obtain ⟨u, v, rfl⟩ := containsSub_iff.mp h
  exact containsSub_iff.mpr ⟨u, v ++ b, by simp⟩

theorem mem_of_containsSub {pat s : List Char} {c : Char}
    (h : containsSub pat s = true) (hc : c ∈ pat) : c ∈ s := by
  obtain ⟨u, v, rfl⟩ := containsSub_iff.mp h
  simp [hc]

theorem isPrefixOf_append_left (l r : List Char) : l.isPrefixOf (l ++ r) = true :=
  prefixOf_exists.mpr ⟨r, rfl⟩

theorem findSub_append_head {pat t : List Char} {c : Char} (pre : List Char)
    (hhead : pat.head? = some c) (hpre : c ∉ pre) (hp : pat.isPrefixOf t = true) :
    findSub pat (pre ++ t) = some pre.length := by
  induction pre with
  | nil =>
    cases t with
    | nil =>
      exfalso
      cases pat with
      | nil => simp at hhead
      | cons a as => simp [List.isPrefixOf] at hp
    | cons d ds =>
      simp [findSub, hp]
  | cons d pre' ih =>
    have hcd : c ≠ d := fun h => hpre (h ▸ List.mem_cons_self d pre')
    have hnp : pat.isPrefixOf (d :: (pre' ++ t)) = false := by
      cases pat with
      | nil => simp at hhead
      | cons a as =>
        have : a = c := by simpa using hhead
        subst this
        simp [List.isPrefixOf, beq_eq_false_iff_ne, hcd]
    have hpre' : c ∉ pre' := fun h => hpre (List.mem_cons_of_mem d h)
    simp [findSub, List.cons_append, hnp, ih hpre']

theorem prefixOf_of_append_newline {p lang rest : List Char}
    (h : p.isPrefixOf (lang ++ '\n' :: rest) = true) (hn : '\n' ∉ p) :
    p.isPrefixOf lang = true := by
  induction p generalizing lang with
  | nil => simp [List.isPrefixOf]
  | cons a p' ih =>
    have ha : a ≠ '\n' := fun hh => hn (hh ▸ List.mem_cons_self a p')
    have hn' : '\n' ∉ p' := fun hh => hn (List.mem_cons_of_mem a hh)
    cases lang with
    | nil =>
      exfalso
      simp only [List.nil_append, List.isPrefixOf, Bool.and_eq_true, beq_iff_eq] at h
      exact ha h.1
    | cons d lang' =>
      simp only [List.cons_append, List.isPrefixOf, Bool.and_eq_true] at h ⊢
      exact ⟨h.1, ih h.2 hn'⟩

theorem dropWhile_word_append {lang rest : List Char}
    (h : lang.all isWordChar = true) :
    (lang ++ '\n' :: rest).dropWhile isWordChar = '\n' :: rest := by
  induction lang with
  | nil =>
    simp [List.dropWhile, isWordChar]
  | cons d lang' ih =>
    simp only [List.all_cons, Bool.and_eq_true] at h
    simp [List.dropWhile, h.1, ih h.2]

/-! ### Helper lemmas about the streaming loop -/

theorem update_keeps_exec {st : TerminalState} (secs : ResponseSections)
    (h : truthyOpt st.last_exec_command = true) :
    truthyOpt (update_system_info st secs).last_exec_command = true := by
  unfold update_system_info
  by_cases he : secs.execution.isEmpty = true
  all_goals simp_all [truthyOpt]

theorem update_keeps_verify {st : TerminalState} (secs : ResponseSections)
    (h : truthyOpt st.last_verify_command = true) :
    truthyOpt (update_system_info st secs).last_verify_command = true := by
  unfold update_system_info
  by_cases he : secs.verification.isEmpty = true
  all_goals simp_all [truthyOpt]

theorem streamLoop_exec_mono :
    ∀ (frags : List (List Char)) (st : TerminalState) (acc : List Char),
      truthyOpt st.last_exec_command = true →
      truthyOpt (streamLoop st acc frags).state.last_exec_command = true := by
  intro frags
  induction frags with
  | nil => intro st acc h; exact h
  | cons f rest ih =>
    intro st acc h
    simp only [streamLoop]
    by_cases hc : containsSub terminateMarker (acc ++ f) = true
    · simp [hc, h]
    · simp only [Bool.not_eq_true] at hc
      simp [hc, ih _ _ (update_keeps_exec _ h)]

theorem streamLoop_verify_mono :
    ∀ (frags : List (List Char)) (st : TerminalState) (acc : List Char),
      truthyOpt st.last_verify_command = true →
      truthyOpt (streamLoop st acc frags).state.last_verify_command = true := by
  intro frags
  induction frags with
  | nil => intro st acc h; exact h
  | cons f rest ih =>
    intro st acc h
    simp only [streamLoop]
    by_cases hc : containsSub terminateMarker (acc ++ f) = true
    · simp [hc, h]
    · simp only [Bool.not_eq_true] at hc
      simp [hc, ih _ _ (update_keeps_verify _ h)]

theorem streamLoop_term_iff :
    ∀ (frags : List (List Char)) (st : TerminalState) (acc : List Char),
      (streamLoop st acc frags).terminated = true ↔
        (frags ≠ [] ∧ containsSub terminateMarker (acc ++ flattenL frags) = true) := by
  intro frags
  induction frags with
  | nil => intro st acc; simp [streamLoop]
  | cons f rest ih =>
    intro st acc
    simp only [streamLoop]
    by_cases hc : containsSub terminateMarker (acc ++ f) = true
    · simp [hc]
      have h2 : acc ++ flattenL (f :: rest) = (acc ++ f) ++ flattenL rest := by
        simp [flattenL, List.append_assoc]
      rw [h2]
      exact containsSub_append_right _ hc
    · simp only [Bool.not_eq_true] at hc
      simp only [hc, Bool.false_eq_true, if_false]
      rw [ih]
      have hfl : acc ++ flattenL (f :: rest) = (acc ++ f) ++ flattenL rest := by
        simp [flattenL, List.append_assoc]
      rw [hfl]
      constructor
      · rintro ⟨_, h2⟩
        exact ⟨List.cons_ne_nil f rest, h2⟩
      · rintro ⟨_, h2⟩
        refine ⟨?_, h2⟩
        rintro rfl
        rw [flattenL, List.append_nil] at h2
        rw [h2] at hc
        simp at hc

theorem streamLoop_no_term_consumed :
    ∀ (frags : List (List Char)) (st : TerminalState) (acc : List Char),
      (streamLoop st acc frags).terminated = false →
      (streamLoop st acc frags).consumed = frags.length := by
  intro frags
  induction frags with
  | nil => intro st acc _; rfl
  | cons f rest ih =>
    intro st acc h
    simp only [streamLoop] at h ⊢
    by_cases hc : containsSub terminateMarker (acc ++ f) = true
    · simp [hc] at h
    · simp only [Bool.not_eq_true] at hc
      simp only [hc, Bool.false_eq_true, if_false] at h ⊢
      simp [ih _ _ h]

theorem streamLoop_stops :
    ∀ (frags : List (List Char)) (st : TerminalState) (acc : List Char),
      containsSub terminateMarker acc = false →
      (streamLoop st acc frags).terminated = true →
      (streamLoop st acc frags).consumed ≤ frags.length ∧
      containsSub terminateMarker
        (acc ++ flattenL (frags.take (streamLoop st acc frags).consumed)) = true ∧
      ∀ j, j < (streamLoop st acc frags).consumed →
        containsSub terminateMarker (acc ++ flattenL (frags.take j)) = false := by
  intro frags
  induction frags with
  | nil =>
    intro st acc _ ht
    simp [streamLoop] at ht
  | cons f rest ih =>
    intro st acc hacc ht
    simp only [streamLoop] at ht ⊢
    by_cases hc : containsSub terminateMarker (acc ++ f) = true
    · simp only [hc, if_true]
      refine ⟨by simp, ?_, ?_⟩
      · simpa [flattenL] using hc
      · intro j hj
        interval_cases j
        simpa [flattenL] using hacc
    · simp only [Bool.not_eq_true] at hc
      simp only [hc, Bool.false_eq_true, if_false] at ht ⊢
      obtain ⟨ih1, ih2, ih3⟩ := ih (update_system_info st (extract_response_sections (acc ++ f)))
        (acc ++ f) hc ht
      refine ⟨by simpa using Nat.succ_le_succ ih1, ?_, ?_⟩
      · simpa [flattenL, List.append_assoc] using ih2
      · intro j hj
        cases j with
        | zero => simpa [flattenL] using hacc
        | succ j' =>
          have := ih3 j' (by omega)
          simpa [flattenL, List.append_assoc] using this

theorem streamLoop_state_id :
    ∀ (frags : List (List Char)) (st : TerminalState) (acc : List Char),
      (∀ k, k ≤ frags.length →
        (extract_response_sections (acc ++ flattenL (frags.take k))).execution = [] ∧
        (extract_response_sections (acc ++ flattenL (frags.take k))).verification = []) →
      (streamLoop st acc frags).state = st := by
  intro frags
  induction frags with
  | nil => intro st acc _; rfl
  | cons f rest ih =>
    intro st acc h
    simp only [streamLoop]
    by_cases hc : containsSub terminateMarker (acc ++ f) = true
    · simp [hc]
    · simp only [Bool.not_eq_true] at hc
      simp only [hc, Bool.false_eq_true, if_false]
      have h1 := h 1 (by simp)
      have hfl : acc ++ flattenL ((f :: rest).take 1) = acc ++ f := by
        simp [flattenL]
      rw [hfl] at h1
      have hupd : update_system_info st (extract_response_sections (acc ++ f)) = st := by
        unfold update_system_info
        rw [h1.1, h1.2]
        rfl
      rw [hupd]
      exact ih st (acc ++ f) (fun k hk => by
        have := h (k + 1) (by simpa using Nat.succ_le_succ hk)
        simpa [flattenL, List.append_assoc] using this)

/-! ### Claim theorems -/

/-- C1, counterexample.  The claim says `run_verification` returns a
`(success, resultText)` pair for every input, in particular a successful
*pair* when no verification command is recorded.  On the recorded-command-
absent input it instead returns the bare boolean `True` (`verify_execution.py`
line 76, `return True`), i.e. the `bareBool` shape of its
`bool | tuple[bool, str]` return annotation, not a pair. -/
theorem C1_counterexample :
    (run_verification none 30 (ProcResult.completed 0 [] [])).ret = VerifyReturn.bareBool true ∧
    (run_verification none 30 (ProcResult.completed 0 [] [])).spawned = false := by
  decide

/-- C1, amended.  `run_verification` returns a `(success, resultText)` pair
and never raises in every branch where a verification command is present;
when the command is absent or empty it returns the bare boolean `True`
(a successful outcome, not a pair) without spawning a subprocess. -/
theorem C1_amended (verify_command : Option (List Char)) (timeout : Nat) (proc : ProcResult) :
    (truthyOpt verify_command = false →
      run_verification verify_command timeout proc = ⟨false, .bareBool true⟩) ∧
    (truthyOpt verify_command = true →
      (run_verification verify_command timeout proc).spawned = true ∧
      ∃ b s, (run_verification verify_command timeout proc).ret = .pair b s) := by
  constructor
  · intro h
    simp [run_verification, h]
  · intro h
    cases verify_command with
    | none => simp [truthyOpt] at h
    | some s =>
      cases s with
      | nil => simp [truthyOpt, List.isEmpty] at h
      | cons c cs =>
        cases proc with
        | completed code o e => exact ⟨rfl, _, _, rfl⟩
        | timedOut => exact ⟨rfl, _, _, rfl⟩
        | subprocessError m =>
          constructor
          · show (run_verification (some (c :: cs)) timeout (.subprocessError m)).spawned = true
            unfold run_verification
            split
            · simp [truthyOpt] at *
            · split <;> first | rfl | (split <;> rfl)
          · show ∃ b r, (run_verification (some (c :: cs)) timeout (.subprocessError m)).ret
              = VerifyReturn.pair b r
            unfold run_verification
            split
            · simp [truthyOpt] at *
            · split <;> first
                | exact ⟨_, _, rfl⟩
                | (split <;> exact ⟨_, _, rfl⟩)
        | unexpected m => exact ⟨rfl, _, _, rfl⟩

/-- C1, witness: the amended theorem applied at an absent command and at the
concrete command `ls` with a timed-out subprocess. -/
theorem C1_witness :
    run_verification none 30 ProcResult.timedOut = ⟨false, .bareBool true⟩ ∧
    (run_verification (some ("ls".toList)) 30 ProcResult.timedOut).spawned = true :=
  ⟨(C1_amended none 30 ProcResult.timedOut).1 (by decide),
   ((C1_amended (some ("ls".toList)) 30 ProcResult.timedOut).2 (by decide)).1⟩

/-- C2, counterexample.  The claim says presence of the closed termination
tag pair ends the multi-step task regardless of letter case.  Feeding the
Streaming Session the single fragment `<terminate></terminate>` (lowercase)
does *not* end the task — `show_streaming_output` checks only the literal
uppercase `"<TERMINATE></TERMINATE>" in accumulated_text` (`console.py` line
133) — even though the terminate detection of the extractor reports the pair as
present. -/
theorem C2_counterexample :
    (show_streaming_output initTerminal
      (some ["<terminate></terminate>".toList])).completionNotice = false ∧
    extract_xml_section ("<terminate></terminate>".toList) ("terminate".toList)
      = "true".toList := by
  decide

/-- C7, code_bug evidence.  The claim (and spec §4.3 step 4) says an empty
fragment sequence reports a "no content received" error and skips
confirmation.  The guard `if not generator` (`console.py` line 119) can only
fire for a falsy argument such as `None` — a Python generator object is
always truthy even when it yields nothing — so on an actual empty generator
no error is reported, and the confirmation step still runs off command slots
left over from an earlier session.  The last two conjuncts show the error
path exists but only for the `None`-like argument. -/
theorem C7_empty_generator :
    (show_streaming_output ⟨some ("apt install foo".toList), none⟩ (some [])).errorReported
      = false ∧
    (show_streaming_output ⟨some ("apt install foo".toList), none⟩ (some [])).ranConfirmation
      = true ∧
    (show_streaming_output ⟨some ("apt install foo".toList), none⟩ none).errorReported = true ∧
    (show_streaming_output ⟨some ("apt install foo".toList), none⟩ none).ranConfirmation
      = false := by
  decide

/-- C4, counterexample.  The claim says `extract` returns the
whitespace-trimmed content between the first `<tag>` and the first following
`</tag>` for every text.  When the captured body contains a fenced code
block, the source instead returns the fence interior
(`console_response.py` lines 23-26): here the trimmed between-tags content is
the whole fenced block, but `extract` returns `foo`. -/
theorem C4_counterexample :
    extract_xml_section ("<execution_section>```sh\nfoo\n```</execution_section>".toList)
      ("execution_section".toList) = "foo".toList ∧
    extractSpecContract ("<execution_section>```sh\nfoo\n```</execution_section>".toList)
      ("execution_section".toList) = "```sh\nfoo\n```".toList ∧
    ("foo".toList : List Char) ≠ "```sh\nfoo\n```".toList := by
  decide

/-- C5, counterexample.  The claim says the extractor returns the fenced
interior excluding the language hint for every fenced body.  For the real
language tag `shellscript` the alternation `(?:xml|bash|shell|\w+)?` takes
its literal `shell` branch first and consumes only `shell`, leaving
`script\n` inside the captured group: the result is `script\necho hi`, not
the fence interior `echo hi`. -/
theorem C5_counterexample :
    extract_xml_section
      ("<execution_section>```shellscript\necho hi```</execution_section>".toList)
      ("execution_section".toList) = "script\necho hi".toList ∧
    ("script\necho hi".toList : List Char) ≠ "echo hi".toList := by
  decide

/-- C2, amended.  The termination detection of the extractor
(`extract_xml_section` with tag `terminate`) is case-insensitive: it reports
the pair for the lowercase, uppercase and mixed-case variants and reports
nothing for a lone opening tag.  The Streaming Session, however, ends the
multi-step task if and only if the accumulated text contains the exact
uppercase literal `<TERMINATE></TERMINATE>`. -/
theorem C2_amended :
    extract_xml_section ("<terminate></terminate>".toList) ("terminate".toList)
      = "true".toList ∧
    extract_xml_section ("<TERMINATE></TERMINATE>".toList) ("terminate".toList)
      = "true".toList ∧
    extract_xml_section ("<TerMiNaTe>junk</tErMINate>".toList) ("terminate".toList)
      = "true".toList ∧
    extract_xml_section ("<terminate>".toList) ("terminate".toList) = [] ∧
    ∀ (st : TerminalState) (frags : List (List Char)),
      (show_streaming_output st (some frags)).completionNotice = true ↔
        containsSub terminateMarker (flattenL frags) = true := by
  refine ⟨by decide, by decide, by decide, by decide, ?_⟩
  intro st frags
  have hnote : (show_streaming_output st (some frags)).completionNotice
      = (streamLoop st [] frags).terminated := by
    by_cases ht : (streamLoop st [] frags).terminated = true
    · simp [show_streaming_output, ht]
    · simp only [Bool.not_eq_true] at ht
      simp [show_streaming_output, ht]
  rw [hnote, streamLoop_term_iff]
  simp only [List.nil_append]
  constructor
  · rintro ⟨_, h2⟩
    exact h2
  · intro h2
    refine ⟨?_, h2⟩
    rintro rfl
    exact absurd h2 (by decide)

/-- C3.  Once the accumulation buffer contains the uppercase termination
marker, the Streaming Session consumes no further fragments (the first
conjuncts pin `consumed` to the first fragment index at which the buffer
contains the marker), presents the completion notice, and returns without
running the confirmation step, regardless of the command slots already
captured in `st`. -/
theorem C3_terminates (st : TerminalState) (frags : List (List Char))
    (h : containsSub terminateMarker (flattenL frags) = true) :
    (show_streaming_output st (some frags)).completionNotice = true ∧
    (show_streaming_output st (some frags)).ranConfirmation = false ∧
    (show_streaming_output st (some frags)).consumed ≤ frags.length ∧
    containsSub terminateMarker
      (flattenL (frags.take (show_streaming_output st (some frags)).consumed)) = true ∧
    ∀ j, j < (show_streaming_output st (some frags)).consumed →
      containsSub terminateMarker (flattenL (frags.take j)) = false := by
  have hne : frags ≠ [] := by
    rintro rfl
    exact absurd h (by decide)
  have hterm : (streamLoop st [] frags).terminated = true :=
    (streamLoop_term_iff frags st []).mpr ⟨hne, by simpa using h⟩
  obtain ⟨h1, h2, h3⟩ := streamLoop_stops frags st [] (by decide) hterm
  have hred : show_streaming_output st (some frags) =
      ⟨false, true, (streamLoop st [] frags).consumed, false, (streamLoop st [] frags).state⟩ := by
    simp [show_streaming_output, hterm]
  rw [hred]
  exact ⟨rfl, rfl, h1, by simpa using h2, fun j hj => by simpa using h3 j hj⟩

/-- C3, witness: a session whose second fragment completes the marker, run
from a state with both command slots set, shows the notice and skips
confirmation. -/
theorem C3_witness :
    (show_streaming_output ⟨some ("apt install foo".toList), some ("kubectl get pods".toList)⟩
      (some ["abc<TERMI".toList, "NATE></TERMINATE>xy".toList, "more".toList])).completionNotice
      = true ∧
    (show_streaming_output ⟨some ("apt install foo".toList), some ("kubectl get pods".toList)⟩
      (some ["abc<TERMI".toList, "NATE></TERMINATE>xy".toList, "more".toList])).ranConfirmation
      = false := by
  have h := C3_terminates
    ⟨some ("apt install foo".toList), some ("kubectl get pods".toList)⟩
    ["abc<TERMI".toList, "NATE></TERMINATE>xy".toList, "more".toList] (by decide)
  exact ⟨h.1, h.2.1⟩

/-- C4, amended.  For every text and every non-terminate tag whose captured
body contains no fenced code block, `extract_xml_section` returns exactly the
value of the spec contract: the whitespace-trimmed content between the first
`<tag>` and the first following `</tag>` (non-greedy, spanning newlines), and
the empty string — the function is total, so nothing can raise — whenever the
tag pair is not both present, including on a truncated prefix with an
unterminated opening tag. -/
theorem C4_amended (text tag : List Char)
    (hterm : asciiLower tag ≠ "terminate".toList)
    (hfence : findFence (extractSpecContract text tag) = none) :
    extract_xml_section text tag = extractSpecContract text tag := by
  unfold extract_xml_section
  rw [if_neg hterm]
  unfold capturedBody
  unfold extractSpecContract at hfence ⊢
  cases hopen : findSub (openTagL tag) text with
  | none => simp [hopen]
  | some i =>
    cases hclose : findSub (closeTagL tag) (text.drop (i + (openTagL tag).length)) with
    | none => simp [hopen, hclose]
    | some j =>
      simp only [hopen, hclose] at hfence ⊢
      simp [hfence]

/-- C4, witness: the amended theorem applied to a truncated prefix with an
unterminated `<execution_section>` tag (both sides are the empty string). -/
theorem C4_witness :
    extract_xml_section ("<execution_section>apt ins".toList) ("execution_section".toList)
      = extractSpecContract ("<execution_section>apt ins".toList)
          ("execution_section".toList) :=
  C4_amended _ _ (by decide) (by decide)

/-- C5, amended.  For every section whose captured body (after stripping)
contains a well-formed fenced code block — an opening fence, an optional
language tag made of word characters, a newline, the interior, a closing
fence — the extractor returns the trimmed code-block interior, excluding the
fence markers and the language hint, *provided* the language tag does not
properly extend one of the literal alternatives `xml`/`bash`/`shell` of the
source pattern; a tag such as `shellscript` leaves the remainder of the tag
inside the returned content (see the counterexample).  The backtick-freeness
side conditions pin the fence found by the search to the given one. -/
theorem C5_amended (text tag body pre lang interior post : List Char)
    (hterm : asciiLower tag ≠ "terminate".toList)
    (hbody : capturedBody text tag = some body)
    (hdecomp : stripL body
      = pre ++ (fenceMarker ++ (lang ++ ('\n' :: (interior ++ (fenceMarker ++ post))))))
    (hpre : btick ∉ pre)
    (hint : btick ∉ interior)
    (hlang : lang.all isWordChar = true)
    (hxml : "xml".toList.isPrefixOf lang = true → lang = "xml".toList)
    (hbash : "bash".toList.isPrefixOf lang = true → lang = "bash".toList)
    (hshell : "shell".toList.isPrefixOf lang = true → lang = "shell".toList) :
    extract_xml_section text tag = stripL interior := by
  have hhead : fenceMarker.head? = some btick := rfl
  have heat : eatLang (lang ++ '\n' :: (interior ++ (fenceMarker ++ post)))
      = '\n' :: (interior ++ (fenceMarker ++ post)) := by
    unfold eatLang
    by_cases h1 : "xml".toList.isPrefixOf (lang ++ '\n' :: (interior ++ (fenceMarker ++ post)))
        = true
    · have h2 := hxml (prefixOf_of_append_newline h1 (by decide))
      subst h2
      rw [if_pos h1]
      rfl
    · rw [if_neg h1]
      by_cases h3 : "bash".toList.isPrefixOf (lang ++ '\n' :: (interior ++ (fenceMarker ++ post)))
          = true
      · have h4 := hbash (prefixOf_of_append_newline h3 (by decide))
        subst h4
        rw [if_pos h3]
        rfl
      · rw [if_neg h3]
        by_cases h5 : "shell".toList.isPrefixOf
            (lang ++ '\n' :: (interior ++ (fenceMarker ++ post))) = true
        · have h6 := hshell (prefixOf_of_append_newline h5 (by decide))
          subst h6
          rw [if_pos h5]
          rfl
        · rw [if_neg h5]
          exact dropWhile_word_append hlang
  have hfence : findFence (stripL body) = some interior := by
    rw [hdecomp]
    unfold findFence
    have hfs1 : findSub fenceMarker
        (pre ++ (fenceMarker ++ (lang ++ ('\n' :: (interior ++ (fenceMarker ++ post))))))
        = some pre.length :=
      findSub_append_head pre hhead hpre (isPrefixOf_append_left _ _)
    simp only [hfs1]
    have hdrop : (pre ++ (fenceMarker ++ (lang ++ ('\n' :: (interior ++ (fenceMarker ++ post)))))).drop
        (pre.length + 3)
        = lang ++ ('\n' :: (interior ++ (fenceMarker ++ post))) := by
      have hassoc : pre ++ (fenceMarker ++ (lang ++ ('\n' :: (interior ++ (fenceMarker ++ post)))))
          = (pre ++ fenceMarker) ++ (lang ++ ('\n' :: (interior ++ (fenceMarker ++ post)))) := by
        simp [List.append_assoc]
      have hlen : (pre ++ fenceMarker).length = pre.length + 3 := by
        simp [fenceMarker]
      rw [hassoc, ← hlen, List.drop_left]
    rw [hdrop, heat]
    have heN : eatNewline ('\n' :: (interior ++ (fenceMarker ++ post)))
        = interior ++ (fenceMarker ++ post) := rfl
    rw [heN]
    have hfs2 : findSub fenceMarker (interior ++ (fenceMarker ++ post))
        = some interior.length :=
      findSub_append_head interior hhead hint (isPrefixOf_append_left _ _)
    simp only [hfs2]
    rw [List.take_left]
  unfold extract_xml_section
  rw [if_neg hterm]
  simp only [hbody, hfence]

/-- C5, witness: the amended theorem applied to a body fenced with the exact
language tag `bash`; the extracted value is the trimmed fence interior. -/
theorem C5_witness :
    extract_xml_section
      ("<execution_section>```bash\napt install foo\n```</execution_section>".toList)
      ("execution_section".toList) = "apt install foo".toList := by
  have h := C5_amended
    ("<execution_section>```bash\napt install foo\n```</execution_section>".toList)
    ("execution_section".toList)
    ("```bash\napt install foo\n```".toList)
    [] ("bash".toList) ("apt install foo\n".toList) []
    (by decide) (by decide) (by decide) (by decide) (by decide) (by decide)
    (by decide) (by decide) (by decide)
  exact h.trans (by decide)

theorem notPrefix_append_of_head_ne {pat lit : List Char} {cp cl : Char}
    (hp : pat.head? = some cp) (hl : lit.head? = some cl) (hne : cp ≠ cl)
    (X : List Char) : pat.isPrefixOf (lit ++ X) = false := by
  cases pat with
  | nil => simp at hp
  | cons a as =>
    cases lit with
    | nil => simp at hl
    | cons b bs =>
      have ha : a = cp := by simpa using hp
      have hb : b = cl := by simpa using hl
      have hbeq : (a == b) = false := beq_eq_false_iff_ne.mpr (by rw [ha, hb]; exact hne)
      simp [List.cons_append, List.isPrefixOf, hbeq]

/-- C6.  For a present verification command: normal completion reports
success iff the exit code is zero, with a result string that combines the
captured stdout (when non-empty), stderr (when non-empty) and a status line
carrying the exit code; a timeout yields a failure pair whose text carries
the timeout-specific indicator (and, being a total function, terminates —
there is no indefinite hang in the model); and the command-not-found class
yields a failure pair with its own indicator, distinct from the timeout one.
Normal-completion and command-not-found results never carry the timeout
indicator. -/
theorem C6_runner (verify_command : Option (List Char)) (timeout : Nat)
    (h : truthyOpt verify_command = true) :
    (∀ (code : Int) (stdout stderr : List Char),
      (run_verification verify_command timeout (.completed code stdout stderr)).ret
        = .pair (code == 0) (buildVerificationResult stdout stderr code) ∧
      ((code == 0) = true ↔ code = 0) ∧
      (stdout.isEmpty = false →
        ∃ u v, buildVerificationResult stdout stderr code = u ++ (stdout ++ v)) ∧
      (stderr.isEmpty = false →
        ∃ u v, buildVerificationResult stdout stderr code = u ++ (stderr ++ v)) ∧
      (∃ u, buildVerificationResult stdout stderr code
        = u ++ (" (return code: ".toList ++ (intChars code ++ ")".toList))) ∧
      "Timeout Error".toList.isPrefixOf (buildVerificationResult stdout stderr code)
        = false) ∧
    (∃ s, (run_verification verify_command timeout .timedOut).ret = .pair false s ∧
      "Timeout Error".toList.isPrefixOf s = true) ∧
    (∀ msg, containsSub ("command not found".toList) (asciiLower msg) = true →
      ∃ s, (run_verification verify_command timeout (.subprocessError msg)).ret
          = .pair false s ∧
        "Command Not Found".toList.isPrefixOf s = true ∧
        "Timeout Error".toList.isPrefixOf s = false) := by
  cases verify_command with
  | none => simp [truthyOpt] at h
  | some s0 =>
    cases s0 with
    | nil => simp [truthyOpt, List.isEmpty] at h
    | cons c cs =>
      refine ⟨?_, ?_, ?_⟩
      · intro code o e
        refine ⟨rfl, by simp, ?_, ?_, ?_, ?_⟩
        · intro ho
          have hrw : buildVerificationResult o e code
              = "Output:\n".toList ++ (o ++ ("\n".toList
                ++ ((if !e.isEmpty then "Errors:\n".toList ++ e ++ "\n".toList else [])
                  ++ ("Status: ".toList
                    ++ ((if code = 0 then "Success".toList else "Failed".toList)
                      ++ (" (return code: ".toList ++ (intChars code ++ ")".toList))))))) := by
            simp [buildVerificationResult, ho, List.append_assoc]
          exact ⟨_, _, hrw⟩
        · intro he
          have hrw : buildVerificationResult o e code
              = ((if !o.isEmpty then "Output:\n".toList ++ o ++ "\n".toList else [])
                  ++ "Errors:\n".toList)
                ++ (e ++ ("\n".toList
                  ++ ("Status: ".toList
                    ++ ((if code = 0 then "Success".toList else "Failed".toList)
                      ++ (" (return code: ".toList ++ (intChars code ++ ")".toList)))))) := by
            simp [buildVerificationResult, he, List.append_assoc]
          exact ⟨_, _, hrw⟩
        · have hrw : buildVerificationResult o e code
              = ((if !o.isEmpty then "Output:\n".toList ++ o ++ "\n".toList else [])
                  ++ ((if !e.isEmpty then "Errors:\n".toList ++ e ++ "\n".toList else [])
                    ++ ("Status: ".toList
                      ++ (if code = 0 then "Success".toList else "Failed".toList))))
                ++ (" (return code: ".toList ++ (intChars code ++ ")".toList)) := by
            simp [buildVerificationResult, List.append_assoc]
          exact ⟨_, hrw⟩
        · by_cases ho : o.isEmpty = true
          · by_cases he : e.isEmpty = true
            · have hrw : buildVerificationResult o e code
                  = "Status: ".toList
                    ++ ((if code = 0 then "Success".toList else "Failed".toList)
                      ++ (" (return code: ".toList ++ (intChars code ++ ")".toList))) := by
                simp [buildVerificationResult, ho, he, List.append_assoc]
              rw [hrw]
              exact @notPrefix_append_of_head_ne _ _ 'T' 'S' (by decide) (by decide)
                (by decide) _
            · simp only [Bool.not_eq_true] at he
              have hrw : buildVerificationResult o e code
                  = "Errors:\n".toList
                    ++ (e ++ ("\n".toList ++ ("Status: ".toList
                      ++ ((if code = 0 then "Success".toList else "Failed".toList)
                        ++ (" (return code: ".toList ++ (intChars code ++ ")".toList)))))) := by
                simp [buildVerificationResult, ho, he, List.append_assoc]
              rw [hrw]
              exact @notPrefix_append_of_head_ne _ _ 'T' 'E' (by decide) (by decide)
                (by decide) _
          · simp only [Bool.not_eq_true] at ho
            have hrw : buildVerificationResult o e code
                = "Output:\n".toList ++ (o ++ ("\n".toList
                  ++ ((if !e.isEmpty then "Errors:\n".toList ++ e ++ "\n".toList else [])
                    ++ ("Status: ".toList
                      ++ ((if code = 0 then "Success".toList else "Failed".toList)
                        ++ (" (return code: ".toList ++ (intChars code ++ ")".toList))))))) := by
              simp [buildVerificationResult, ho, List.append_assoc]
            rw [hrw]
            exact @notPrefix_append_of_head_ne _ _ 'T' 'O' (by decide) (by decide)
              (by decide) _
      · refine ⟨("Timeout Error: Command timed out after ".toList ++ natChars timeout)
          ++ " seconds".toList, rfl, ?_⟩
        have hsp : "Timeout Error: Command timed out after ".toList
            = "Timeout Error".toList ++ ": Command timed out after ".toList := by decide
        refine prefixOf_exists.mpr
          ⟨": Command timed out after ".toList ++ (natChars timeout ++ " seconds".toList), ?_⟩
        rw [hsp]
        simp [List.append_assoc]
      · intro msg hm
        have hred : run_verification (some (c :: cs)) timeout (.subprocessError msg)
            = if containsSub ("command not found".toList) (asciiLower msg) = true then
                ⟨true, .pair false ("Command Not Found: Command not found: ".toList
                  ++ firstShellToken ((some (c :: cs)).getD []))⟩
              else
                ⟨true, .pair false
                  ("Execution Error: Error executing command: ".toList ++ msg)⟩ := rfl
        refine ⟨"Command Not Found: Command not found: ".toList
          ++ firstShellToken ((some (c :: cs)).getD []), by rw [hred, if_pos hm], ?_, ?_⟩
        · have hsp : "Command Not Found: Command not found: ".toList
              = "Command Not Found".toList ++ ": Command not found: ".toList := by decide
          refine prefixOf_exists.mpr
            ⟨": Command not found: ".toList ++ firstShellToken ((some (c :: cs)).getD []), ?_⟩
          rw [hsp]
          simp [List.append_assoc]
        · exact @notPrefix_append_of_head_ne _ _ 'T' 'C' (by decide) (by decide)
            (by decide) _

/-- C6, witness: the theorem applied at the concrete command `ls` with a
normally-completed subprocess that exited 1 with stdout `hi`, and its timeout
conjunct. -/
theorem C6_witness :
    (run_verification (some ("ls".toList)) 30 (.completed 1 ("hi".toList) [])).ret
      = .pair ((1 : Int) == 0) (buildVerificationResult ("hi".toList) [] 1) ∧
    ∃ s, (run_verification (some ("ls".toList)) 30 .timedOut).ret = .pair false s ∧
      "Timeout Error".toList.isPrefixOf s = true := by
  have h := C6_runner (some ("ls".toList)) 30 (by decide)
  exact ⟨(h.1 1 ("hi".toList) []).1, h.2.1⟩

/-- C8.  At the confirmation prompt: an empty input behaves exactly like the
affirmative answer `yes` (so does an interrupted prompt, which the source
also maps through the same substitution); any input other than a recognized
affirmative/negative token produces one "Please answer Yes or No" warning and
one further prompt, leaving the eventual outcome to the remaining inputs; and
a recognized negative answer warns and returns false without running the
verification command. -/
theorem C8_confirmation :
    (∀ (rest : List (Option (List Char))) (st : TerminalState) (proc : ProcResult),
      get_command_confirmation (some [] :: rest) st proc
        = get_command_confirmation (some ("yes".toList) :: rest) st proc ∧
      get_command_confirmation (none :: rest) st proc
        = get_command_confirmation (some ("yes".toList) :: rest) st proc) ∧
    (∀ (s : List Char) (rest : List (Option (List Char))) (st : TerminalState)
        (proc : ProcResult),
      stripL s ≠ [] → isRecognized s = false →
      (get_command_confirmation (some s :: rest) st proc).outcome
          = (get_command_confirmation rest st proc).outcome ∧
      (get_command_confirmation (some s :: rest) st proc).promptsShown
          = (get_command_confirmation rest st proc).promptsShown + 1 ∧
      (get_command_confirmation (some s :: rest) st proc).retryWarnings
          = (get_command_confirmation rest st proc).retryWarnings + 1 ∧
      (get_command_confirmation (some s :: rest) st proc).warnedNotExecuted
          = (get_command_confirmation rest st proc).warnedNotExecuted ∧
      (get_command_confirmation (some s :: rest) st proc).ranVerification
          = (get_command_confirmation rest st proc).ranVerification) ∧
    (∀ (s : List Char) (rest : List (Option (List Char))) (st : TerminalState)
        (proc : ProcResult),
      stripL s ≠ [] → isRecognized s = true →
      "n".toList.isPrefixOf (asciiLower s) = true →
      get_command_confirmation (some s :: rest) st proc
        = ⟨.notConfirmed, 1, 0, true, false⟩) := by
  refine ⟨?_, ?_, ?_⟩
  · intro rest st proc
    exact ⟨rfl, rfl⟩
  · intro s rest st proc h1 h2
    rcases hrest : confirmLoop rest with ⟨o, n, w⟩
    have hloop : confirmLoop (some s :: rest) = (o, n + 1, w + 1) := by
      simp only [confirmLoop]
      rw [if_neg h1]
      simp [h2, hrest]
    cases o with
    | none =>
      simp [get_command_confirmation, hloop, hrest]
    | some resp =>
      by_cases hn : (['n'] <+: asciiLower resp)
      · simp [get_command_confirmation, hloop, hrest, hn]
      · cases hv : (run_verification st.last_verify_command 30 proc).ret with
        | bareBool b => simp [get_command_confirmation, hloop, hrest, hn, hv]
        | pair b s2 => simp [get_command_confirmation, hloop, hrest, hn, hv]
  · intro s rest st proc h1 h2 h3
    have hloop : confirmLoop (some s :: rest) = (some s, 1, 0) := by
      simp only [confirmLoop]
      rw [if_neg h1]
      simp [h2]
    have h3' : ['n'] <+: asciiLower s := by
      obtain ⟨t, ht⟩ := prefixOf_exists.mp h3
      exact ⟨t, ht.symm⟩
    simp [get_command_confirmation, hloop, h3']

/-- C8, witness: the theorem applied at an empty first input, and at the
concrete negative answer `No` with a verify command recorded (no verification
runs). -/
theorem C8_witness :
    get_command_confirmation [some []] ⟨none, some ("ls".toList)⟩ (.completed 0 [] [])
      = get_command_confirmation [some ("yes".toList)] ⟨none, some ("ls".toList)⟩
          (.completed 0 [] []) ∧
    get_command_confirmation [some ("No".toList)] ⟨none, some ("ls".toList)⟩
        (.completed 0 [] [])
      = ⟨.notConfirmed, 1, 0, true, false⟩ := by
  have h := C8_confirmation
  exact ⟨(h.1 [] ⟨none, some ("ls".toList)⟩ (.completed 0 [] [])).1,
    h.2.2 ("No".toList) [] ⟨none, some ("ls".toList)⟩ (.completed 0 [] [])
      (by decide) (by decide) (by decide)⟩

theorem exists_infix_under {s pre rest pat : List Char} (h : s = pre ++ rest)
    (h2 : ∃ u w, rest = u ++ (pat ++ w)) : ∃ u w, s = u ++ (pat ++ w) := by
  obtain ⟨u, w, rfl⟩ := h2
  exact ⟨pre ++ u, w, by rw [h]; simp [List.append_assoc]⟩

/-- C9.  After a verification outcome, `handle_verification_status` appends
exactly one message, with role `user`, to the conversation history (evicting
the oldest entry first when at capacity): the follow-up message of the branch,
which contains the executed command, the verification command and the
verification result; on success it carries the instruction to supply the next
step or emit the termination marker, on failure it carries the
troubleshooting instruction and — whenever the three interpolated facts do
not themselves contain a `<` — no occurrence of the termination marker at
all. -/
theorem C9_feedback (success : Bool) (e v r : List Char) (mb : MessageBroker) :
    handle_verification_status success r mb e v
      = Except.ok { mb with message_history :=
          (if mb.message_history.length ≥ mb.max_history then mb.message_history.tail
           else mb.message_history) ++ [⟨Role.user, followUpMessage success e v r⟩] } ∧
    (∃ u w, followUpMessage success e v r = u ++ (e ++ w)) ∧
    (∃ u w, followUpMessage success e v r = u ++ (v ++ w)) ∧
    (∃ u w, followUpMessage success e v r = u ++ (r ++ w)) ∧
    (success = true → ∃ u w, followUpMessage success e v r
      = u ++ ("include <TERMINATE></TERMINATE> in your response".toList ++ w)) ∧
    (success = false → ∃ u w, followUpMessage success e v r
      = u ++ ("provide specific troubleshooting steps".toList ++ w)) ∧
    (success = false → '<' ∉ e → '<' ∉ v → '<' ∉ r →
      containsSub terminateMarker (followUpMessage success e v r) = false) := by
  have hne : (followUpMessage success e v r).isEmpty = false := by
    cases success <;> rfl
  refine ⟨?_, ?_, ?_, ?_, ?_, ?_, ?_⟩
  · simp [handle_verification_status, add_message, hne]
  · cases success
    · show ∃ u w, troubleshootMessage e v r = u ++ (e ++ w)
      unfold troubleshootMessage
      exact ⟨_, _, rfl⟩
    · show ∃ u w, successMessage e v r = u ++ (e ++ w)
      unfold successMessage
      exact ⟨_, _, rfl⟩
  · cases success
    · show ∃ u w, troubleshootMessage e v r = u ++ (v ++ w)
      unfold troubleshootMessage
      exact exists_infix_under rfl (exists_infix_under rfl ⟨_, _, rfl⟩)
    · show ∃ u w, successMessage e v r = u ++ (v ++ w)
      unfold successMessage
      exact exists_infix_under rfl (exists_infix_under rfl ⟨_, _, rfl⟩)
  · cases success
    · show ∃ u w, troubleshootMessage e v r = u ++ (r ++ w)
      unfold troubleshootMessage
      exact exists_infix_under rfl (exists_infix_under rfl (exists_infix_under rfl
        (exists_infix_under rfl ⟨_, _, rfl⟩)))
    · show ∃ u w, successMessage e v r = u ++ (r ++ w)
      unfold successMessage
      exact exists_infix_under rfl (exists_infix_under rfl (exists_infix_under rfl
        (exists_infix_under rfl ⟨_, _, rfl⟩)))
  · intro hs
    subst hs
    show ∃ u w, successMessage e v r
      = u ++ ("include <TERMINATE></TERMINATE> in your response".toList ++ w)
    unfold successMessage
    refine exists_infix_under rfl (exists_infix_under rfl (exists_infix_under rfl
      (exists_infix_under rfl (exists_infix_under rfl (exists_infix_under rfl
        ⟨"\n\n                               Please provide the next step. However, if there are no more steps remaining, ".toList,
         ".".toList, by decide⟩)))))
  · intro hs
    subst hs
    show ∃ u w, troubleshootMessage e v r
      = u ++ ("provide specific troubleshooting steps".toList ++ w)
    unfold troubleshootMessage
    refine exists_infix_under rfl (exists_infix_under rfl (exists_infix_under rfl
      (exists_infix_under rfl (exists_infix_under rfl (exists_infix_under rfl
        ⟨"\n                \n                Please analyze the output and ".toList,
         " to resolve this issue.".toList, by decide⟩)))))
  · intro hs he hv hr
    subst hs
    cases hb : containsSub terminateMarker (followUpMessage false e v r) with
    | false => rfl
    | true =>
      exfalso
      have hmem : '<' ∈ followUpMessage false e v r :=
        mem_of_containsSub hb (by decide)
      have hmem' : '<' ∈ troubleshootMessage e v r := hmem
      unfold troubleshootMessage at hmem'
      simp only [List.mem_append] at hmem'
      rcases hmem' with h | h | h | h | h | h | h
      · exact absurd h (by decide)
      · exact he h
      · exact absurd h (by decide)
      · exact hv h
      · exact absurd h (by decide)
      · exact hr h
      · exact absurd h (by decide)

/-- C9, witness: the theorem applied on the failure branch at concrete
commands and result, with an empty history. -/
theorem C9_witness :
    handle_verification_status false ("exit status 1".toList) ⟨[], 100⟩
        ("apt install foo".toList) ("foo --version".toList)
      = Except.ok ⟨[⟨Role.user, followUpMessage false ("apt install foo".toList)
          ("foo --version".toList) ("exit status 1".toList)⟩], 100⟩ ∧
    containsSub terminateMarker (followUpMessage false ("apt install foo".toList)
        ("foo --version".toList) ("exit status 1".toList)) = false := by
  have h := C9_feedback false ("apt install foo".toList) ("foo --version".toList)
    ("exit status 1".toList) ⟨[], 100⟩
  refine ⟨?_, h.2.2.2.2.2.2 rfl (by decide) (by decide) (by decide)⟩
  have h1 := h.1
  simpa using h1

theorem ne_nil_of_isEmpty_false {l : List Char} (h : l.isEmpty = false) : l ≠ [] := by
  cases l with
  | nil => simp at h
  | cons a as => simp

/-- C10.  The terminal's command slots start absent, are only ever assigned
non-empty extracted section values, and are never cleared: a streaming
session preserves a truthy slot, and a later session whose response contains
no execution or verification section in any consumed prefix leaves the state
unchanged and (when the marker never appears) still triggers the confirmation
step using the previously captured commands. -/
theorem C10_persistence :
    (initTerminal.last_exec_command = none ∧ initTerminal.last_verify_command = none) ∧
    (∀ (st : TerminalState) (secs : ResponseSections),
      ((update_system_info st secs).last_exec_command = st.last_exec_command ∨
        ∃ cmd, cmd ≠ [] ∧ (update_system_info st secs).last_exec_command = some cmd) ∧
      ((update_system_info st secs).last_verify_command = st.last_verify_command ∨
        ∃ cmd, cmd ≠ [] ∧ (update_system_info st secs).last_verify_command = some cmd)) ∧
    (∀ (st : TerminalState) (frags : List (List Char)),
      (truthyOpt st.last_exec_command = true →
        truthyOpt ((show_streaming_output st (some frags)).state.last_exec_command)
          = true) ∧
      (truthyOpt st.last_verify_command = true →
        truthyOpt ((show_streaming_output st (some frags)).state.last_verify_command)
          = true)) ∧
    (∀ (st : TerminalState) (frags : List (List Char)),
      containsSub terminateMarker (flattenL frags) = false →
      (∀ k, k ≤ frags.length →
        (extract_response_sections (flattenL (frags.take k))).execution = [] ∧
        (extract_response_sections (flattenL (frags.take k))).verification = []) →
      (show_streaming_output st (some frags)).state = st ∧
      ((truthyOpt st.last_exec_command || truthyOpt st.last_verify_command) = true →
        (show_streaming_output st (some frags)).ranConfirmation = true)) := by
  have hstate : ∀ (st : TerminalState) (frags : List (List Char)),
      (show_streaming_output st (some frags)).state = (streamLoop st [] frags).state := by
    intro st frags
    by_cases ht : (streamLoop st [] frags).terminated = true
    · simp [show_streaming_output, ht]
    · simp only [Bool.not_eq_true] at ht
      simp [show_streaming_output, ht]
  refine ⟨⟨rfl, rfl⟩, ?_, ?_, ?_⟩
  · intro st secs
    constructor
    · by_cases he : secs.execution.isEmpty = true
      · left
        simp [update_system_info, he]
      · right
        simp only [Bool.not_eq_true] at he
        exact ⟨secs.execution, ne_nil_of_isEmpty_false he, by simp [update_system_info, he]⟩
    · by_cases he : secs.verification.isEmpty = true
      · left
        simp [update_system_info, he]
      · right
        simp only [Bool.not_eq_true] at he
        exact ⟨secs.verification, ne_nil_of_isEmpty_false he,
          by simp [update_system_info, he]⟩
  · intro st frags
    constructor
    · intro h
      rw [hstate]
      exact streamLoop_exec_mono frags st [] h
    · intro h
      rw [hstate]
      exact streamLoop_verify_mono frags st [] h
  · intro st frags hterm hsecs
    have hid : (streamLoop st [] frags).state = st :=
      streamLoop_state_id frags st [] (fun k hk => by simpa using hsecs k hk)
    have hnt : (streamLoop st [] frags).terminated = false := by
      cases hb : (streamLoop st [] frags).terminated with
      | false => rfl
      | true =>
        have h2 := (streamLoop_term_iff frags st []).mp hb
        have h3 : containsSub terminateMarker (flattenL frags) = true := by
          simpa using h2.2
        rw [h3] at hterm
        exact absurd hterm (by simp)
    have hred : show_streaming_output st (some frags)
        = ⟨false, false, (streamLoop st [] frags).consumed,
            truthyOpt (streamLoop st [] frags).state.last_exec_command
              || truthyOpt (streamLoop st [] frags).state.last_verify_command,
            (streamLoop st [] frags).state⟩ := by
      simp [show_streaming_output, hnt]
    rw [hred]
    refine ⟨hid, ?_⟩
    intro h
    simpa [hid] using h

/-- C10, witness: a session over a single sectionless fragment, started with
a previously captured execution command, keeps the state and still triggers
the confirmation step. -/
theorem C10_witness :
    (show_streaming_output ⟨some ("apt install foo".toList), none⟩
      (some ["All done, nothing further.".toList])).state
      = ⟨some ("apt install foo".toList), none⟩ ∧
    (show_streaming_output ⟨some ("apt install foo".toList), none⟩
      (some ["All done, nothing further.".toList])).ranConfirmation = true := by
  have h := C10_persistence.2.2.2 ⟨some ("apt install foo".toList), none⟩
    ["All done, nothing further.".toList] (by decide) (by decide)
  exact ⟨h.1, h.2 (by decide)⟩

end Installector
